import Mathlib

/-!
Verification development for the Tailscale MCP server (Go sources).

The definitions below are shallow embeddings of the repository's Go code:

* `MCP` models `internal/mcp/types.go` (protocol codec: error codes,
  error constructors, initialize validation) and the `MCPServer` methods.
* `TailscaleCLI` models `internal/tailscale/cli.go` and the `limitWriter`
  helper (command validation, output capping, `Up` argument construction).
* `ToolRegistry` models the thread-safe registry of
  `internal/tools/registry.go`; `LegacyToolRegistry` models the earlier
  variant whose `GetTools` returns the live map.
* `StdioServer` and `HTTPServer` model the two transports'
  message-handling routines.

Go maps are modelled as association lists with insert-replace semantics;
Go byte strings as Lean `String`/`List Char`; fallible Go calls as
`Except`/`Option` values.  Where map aliasing matters (snapshot-copy
claims), maps live in an explicit heap of handles (`MapHeap`).
-/

namespace Spec2Proof

/-- Association-list lookup, the model of a Go map read `m[k]`. -/
def mapLookup {α : Type} (m : List (String × α)) (k : String) : Option α :=
  match m with
  | [] => none
  | (k₁, v) :: rest => if k₁ = k then some v else mapLookup rest k

/-- Association-list insert-replace, the model of a Go map write `m[k] = v`. -/
def mapInsert {α : Type} (m : List (String × α)) (k : String) (v : α) :
    List (String × α) :=
  match m with
  | [] => [(k, v)]
  | (k₁, v₁) :: rest =>
      if k₁ = k then (k, v) :: rest else (k₁, v₁) :: mapInsert rest k v

end Spec2Proof

namespace Spec2Proof.TailscaleCLI

/-- Constant `maxArgLen = 1000` from `internal/tailscale/cli.go`. -/
def maxArgLen : Nat := 1000

/-- Constant `maxBufSize = 10 * 1024 * 1024` (10 MiB) from `internal/tailscale/cli.go`. -/
def maxBufSize : Nat := 10 * 1024 * 1024

/-- The `allowedCommands` whitelist from `internal/tailscale/cli.go`. -/
def allowedCommands : List String :=
  ["status", "up", "down", "logout", "switch", "configure", "netcheck",
   "ip", "ping", "ssh", "version", "update", "web", "file", "bugreport",
   "cert", "lock", "licenses", "exit-node", "set", "unset"]

/-- The metacharacter set of `strings.ContainsAny(a, ";&|`$(){}[]<>")` in
`ExecuteCommand`.  The backtick and the braces are written via `Char.ofNat`
(code points 96, 123, 125). -/
def execDangerousChars : List Char :=
  [';', '&', '|', Char.ofNat 96, '$', '(', ')',
   Char.ofNat 123, Char.ofNat 125, '[', ']', '<', '>']

/-- Model of `strings.ContainsAny(a, ";&|`$(){}[]<>")`. -/
def containsAnyDangerous (a : String) : Bool :=
  a.toList.any (fun c => execDangerousChars.contains c)

/-- Typed validation failures of `ExecuteCommand`; each constructor carries
exactly the data interpolated into the corresponding Go error message. -/
inductive ValidationError : Type
  | noCommand : ValidationError
  | notAllowed (command : String) : ValidationError
  | tooLong (index : Nat) (length : Nat) : ValidationError
  | invalidChars (index : Nat) (arg : String) : ValidationError
deriving DecidableEq, Repr

/-- Go `%q` on an escape-free string: surround with double quotes. -/
def goQuote (s : String) : String := "\"" ++ s ++ "\""

/-- The error message each validation failure renders to, mirroring the
`errors.New` / `fmt.Errorf` calls in `ExecuteCommand`. -/
def ValidationError.message : ValidationError → String
  | .noCommand => "no command specified"
  | .notAllowed c => "command " ++ goQuote c ++ " not allowed"
  | .tooLong i n =>
      "argument " ++ toString i ++ " too long (" ++ toString n ++ " chars)"
  | .invalidChars i a =>
      "argument " ++ toString i ++ " contains invalid characters: " ++ goQuote a

/-- The `for i, a := range args` loop of `ExecuteCommand`: for each argument
in order, the length check runs first, then the metacharacter check; the
first failure is returned. -/
def validateArgsFrom : Nat → List String → Option ValidationError
  | _, [] => none
  | i, a :: rest =>
      if a.length > maxArgLen then some (.tooLong i a.length)
      else if containsAnyDangerous a then some (.invalidChars i a)
      else validateArgsFrom (i + 1) rest

/-- The full validation prefix of `ExecuteCommand`: empty-list check, then
whitelist check on `args[0]`, then the per-argument loop over all of `args`
(including the subcommand itself). -/
def validateCommand (args : List String) : Option ValidationError :=
  match args with
  | [] => some .noCommand
  | command :: _ =>
      if allowedCommands.contains command then validateArgsFrom 0 args
      else some (.notAllowed command)

/-- Validation in the order the spec text lists the rules: the length rule
over the whole argument list first, then the metacharacter rule over the
whole list.  This definition follows the spec's words, for comparison with
`validateCommand`, which follows the source. -/
def validateCommandSpecOrder (args : List String) : Option ValidationError :=
  match args with
  | [] => some .noCommand
  | command :: _ =>
      if allowedCommands.contains command then
        match (List.range args.length).find?
            (fun i => (args.getD i "").length > maxArgLen) with
        | some i => some (.tooLong i (args.getD i "").length)
        | none =>
            match (List.range args.length).find?
                (fun i => containsAnyDangerous (args.getD i "")) with
            | some i => some (.invalidChars i (args.getD i ""))
            | none => none
      else some (.notAllowed command)

/-- State of a `limitWriter` (`internal/tailscale/util.go`): the backing
`bytes.Buffer` contents, the byte count `n` written so far, and the limit. -/
structure LimitWriter : Type where
  buf : List Char
  n : Nat
  limit : Nat
deriving DecidableEq, Repr

/-- Model of `newLimitWriter(w, limit)` over an empty buffer. -/
def newLimitWriter (limit : Nat) : LimitWriter :=
  { buf := [], n := 0, limit := limit }

/-- The error message `fmt.Errorf("output exceeds %d bytes: %w", l.limit,
io.ErrShortWrite)` renders to. -/
def overflowMessage (limit : Nat) : String :=
  "output exceeds " ++ toString limit ++ " bytes: short write"

/-- Model of `(*limitWriter).Write`: if the chunk would exceed the limit,
append only the remaining bytes up to the limit and report the overflow
error together with the count actually written; otherwise append the whole
chunk (a `bytes.Buffer` write never fails). -/
def LimitWriter.write (l : LimitWriter) (p : List Char) :
    LimitWriter × Nat × Option String :=
  if l.n + p.length > l.limit then
    (if l.limit - l.n > 0 then
       { l with buf := l.buf ++ p.take (l.limit - l.n), n := l.n + (l.limit - l.n) }
     else l,
     l.limit - l.n, some (overflowMessage l.limit))
  else
    ({ l with buf := l.buf ++ p, n := l.n + p.length }, p.length, none)

/-- Model of the `os/exec` copier feeding a stream's chunks into the
capturing writer: it stops at the first write error, which `cmd.Run`
then reports. -/
def feedWriter : LimitWriter → List (List Char) → LimitWriter × Option String
  | l, [] => (l, none)
  | l, p :: ps =>
      match l.write p with
      | (l₁, _, some e) => (l₁, some e)
      | (l₁, _, none) => feedWriter l₁ ps

/-- Model of the spawned subprocess as the core sees it: the chunked byte
streams it writes to stdout and stderr, and whether `cmd.Run` would
otherwise succeed (exit status zero, no timeout, no spawn failure). -/
structure ProcModel : Type where
  stdoutChunks : List (List Char)
  stderrChunks : List (List Char)
  exitOk : Bool

/-- Model of Go `unicode.IsSpace` restricted to the ASCII whitespace that
`strings.TrimSpace` strips from CLI output. -/
def isSpaceChar (c : Char) : Bool :=
  c = ' ' || c = '\t' || c = '\n' || c = '\r'

/-- Model of `strings.TrimSpace` on a byte list. -/
def trimSpace (s : List Char) : List Char :=
  ((s.dropWhile isSpaceChar).reverse.dropWhile isSpaceChar).reverse

/-- Model of the `CLIError` struct built when `cmd.Run` fails. -/
structure CLIErrorModel : Type where
  command : String
  args : List String
  stderr : List Char
  underlying : String
deriving DecidableEq, Repr

/-- Outcome of `ExecuteCommand`: a validation failure returns before any
subprocess is spawned (`notRun`); otherwise the command ran and either
failed (`failed`, wrapping a `CLIError`) or succeeded with trimmed stdout. -/
inductive ExecResult : Type
  | notRun (e : ValidationError)
  | failed (e : CLIErrorModel)
  | ok (stdout : List Char)
deriving DecidableEq, Repr

/-- Model of `(*TailscaleCLI).ExecuteCommand`: validate the argument list
(empty check, whitelist, per-argument length and metacharacter checks),
then run the subprocess with stdout and stderr captured through 10 MiB
`limitWriter`s; a writer error or a non-zero exit surfaces as a `CLIError`,
success returns the trimmed stdout. -/
def ExecuteCommand (proc : ProcModel) (args env : List String) : ExecResult :=
  match validateCommand args with
  | some e => .notRun e
  | none =>
      let out := feedWriter (newLimitWriter maxBufSize) proc.stdoutChunks
      let err := feedWriter (newLimitWriter maxBufSize) proc.stderrChunks
      let runErr : Option String :=
        match out.2 with
        | some e => some e
        | none =>
            match err.2 with
            | some e => some e
            | none => if proc.exitOk then none else some "exit status 1"
      match runErr with
      | some msg =>
          .failed { command := args.headD "", args := args,
                    stderr := trimSpace err.1.buf, underlying := msg }
      | none => .ok (trimSpace out.1.buf)

/-- The `dangerousChars` list of `validateStringInput` (note: it omits the
square brackets and adds the backslash, single and double quote checks of
`validateTarget` do not apply here). -/
def inputDangerousChars : List Char :=
  [';', '&', '|', Char.ofNat 96, '$', '(', ')',
   Char.ofNat 123, Char.ofNat 125, '<', '>', '\\']

/-- Model of `(*TailscaleCLI).validateStringInput`: reject the first
dangerous character contained in the input, then enforce the length cap. -/
def validateStringInput (input fieldName : String) : Option String :=
  match inputDangerousChars.find? (fun c => input.toList.contains c) with
  | some c =>
      some ("invalid character " ++ goQuote (String.singleton c) ++ " in " ++ fieldName)
  | none =>
      if input.length > maxArgLen then
        some (fieldName ++ " too long (max " ++ toString maxArgLen ++ " chars)")
      else none

/-- The `UpOptions` struct; `Timeout` is modelled by its whole-second count. -/
structure UpOptions : Type where
  loginServer : String
  acceptRoutes : Bool
  acceptDNS : Bool
  hostname : String
  advertiseRoutes : List String
  authKey : String
  timeoutSeconds : Nat

/-- Model of `strings.Join(routes, ",")`. -/
def joinComma : List String → String
  | [] => ""
  | [r] => r
  | r :: rest => r ++ "," ++ joinComma rest

/-- The `LoginServer` block of `Up`: validate and append the flag. -/
def upLoginArgs (o : UpOptions) : Except String (List String) :=
  if o.loginServer = "" then .ok ["up"]
  else match validateStringInput o.loginServer "loginServer" with
       | some e => .error ("invalid login server: " ++ e)
       | none => .ok ["up", "--login-server", o.loginServer]

/-- The `AcceptRoutes` / `AcceptDNS` blocks of `Up`. -/
def upFlagArgs (o : UpOptions) (a : List String) : List String :=
  if o.acceptDNS then
    (if o.acceptRoutes then a ++ ["--accept-routes"] else a) ++ ["--accept-dns"]
  else if o.acceptRoutes then a ++ ["--accept-routes"] else a

/-- The `Hostname` block of `Up`. -/
def upHostArgs (o : UpOptions) (a : List String) : Except String (List String) :=
  if o.hostname = "" then .ok a
  else match validateStringInput o.hostname "hostname" with
       | some e => .error ("invalid hostname: " ++ e)
       | none => .ok (a ++ ["--hostname", o.hostname])

/-- The `AdvertiseRoutes` block of `Up`, with the route validator abstract
(the source's `validateRoutes` consults Go's `net.ParseCIDR`). -/
def upRouteArgs (routeCheck : List String → Option String) (o : UpOptions)
    (a : List String) : Except String (List String) :=
  if o.advertiseRoutes.length > 0 then
    match routeCheck o.advertiseRoutes with
    | some e => .error ("invalid routes: " ++ e)
    | none => .ok (a ++ ["--advertise-routes", joinComma o.advertiseRoutes])
  else .ok a

/-- The `AuthKey` block of `Up`: a non-empty validated auth key becomes the
single `TS_AUTHKEY` environment entry; it is never appended to the args. -/
def upAuthEnv (o : UpOptions) : Except String (List String) :=
  if o.authKey = "" then .ok []
  else match validateStringInput o.authKey "authKey" with
       | some e => .error ("invalid auth key: " ++ e)
       | none => .ok ["TS_AUTHKEY=" ++ o.authKey]

/-- The `Timeout` block of `Up`. -/
def upTimeoutArgs (o : UpOptions) (a : List String) : List String :=
  if o.timeoutSeconds > 0 then a ++ ["--timeout", toString o.timeoutSeconds ++ "s"]
  else a

/-- Model of the argument/environment construction in `(*TailscaleCLI).Up`,
assembled from the per-option blocks in source order.  Returns the `args`
list and `env` list that `Up` passes to `ExecuteCommand`, or the validation
error `Up` returns early. -/
def upArgsEnv (routeCheck : List String → Option String) (oOpt : Option UpOptions) :
    Except String (List String × List String) :=
  match oOpt with
  | none => .ok (["up"], [])
  | some o =>
      match upLoginArgs o with
      | .error e => .error e
      | .ok a₁ =>
          match upHostArgs o (upFlagArgs o a₁) with
          | .error e => .error e
          | .ok a₄ =>
              match upRouteArgs routeCheck o a₄ with
              | .error e => .error e
              | .ok a₅ =>
                  match upAuthEnv o with
                  | .error e => .error e
                  | .ok env₁ => .ok (upTimeoutArgs o a₅, env₁)

/-- Model of `(*TailscaleCLI).Up`: build the argument and environment lists,
then hand them to `ExecuteCommand`. -/
def Up (routeCheck : List String → Option String) (proc : ProcModel)
    (oOpt : Option UpOptions) : Except String ExecResult :=
  match upArgsEnv routeCheck oOpt with
  | .error e => .error e
  | .ok (args, env) => .ok (ExecuteCommand proc args env)

end Spec2Proof.TailscaleCLI

namespace Spec2Proof.MCP

/-- The single supported protocol version, `ProtocolVersion = "2024-11-05"`
in `internal/mcp/types.go`. -/
def ProtocolVersion : String := "2024-11-05"

/-- JSON-RPC error code `ErrorCodeParseError`. -/
def ErrorCodeParseError : Int := -32700

/-- JSON-RPC error code `ErrorCodeInvalidRequest`. -/
def ErrorCodeInvalidRequest : Int := -32600

/-- JSON-RPC error code `ErrorCodeMethodNotFound`. -/
def ErrorCodeMethodNotFound : Int := -32601

/-- JSON-RPC error code `ErrorCodeInvalidParams`. -/
def ErrorCodeInvalidParams : Int := -32602

/-- JSON-RPC error code `ErrorCodeInternalError`. -/
def ErrorCodeInternalError : Int := -32603

/-- MCP-specific error code `ErrorCodeUnsupportedProtocol`. -/
def ErrorCodeUnsupportedProtocol : Int := -32000

/-- MCP-specific error code `ErrorCodeToolNotFound`. -/
def ErrorCodeToolNotFound : Int := -32001

/-- MCP-specific error code `ErrorCodeToolExecutionError`. -/
def ErrorCodeToolExecutionError : Int := -32002

/-- The `data any` payload of an `mcp.Error`: absent, a plain string, or a
string-to-string map (the only shapes the error constructors build). -/
inductive ErrData : Type
  | empty : ErrData
  | str (s : String) : ErrData
  | map (entries : List (String × String)) : ErrData
deriving DecidableEq, Repr

/-- The `mcp.Error` struct: code, message, data. -/
structure Error : Type where
  code : Int
  message : String
  data : ErrData
deriving DecidableEq, Repr

/-- Constructor `NewParseError`. -/
def NewParseError (data : ErrData) : Error :=
  { code := ErrorCodeParseError, message := "Parse error", data := data }

/-- Constructor `NewInvalidRequestError`. -/
def NewInvalidRequestError (data : ErrData) : Error :=
  { code := ErrorCodeInvalidRequest, message := "Invalid Request", data := data }

/-- Constructor `NewMethodNotFoundError`: data names the unknown method. -/
def NewMethodNotFoundError (method : String) : Error :=
  { code := ErrorCodeMethodNotFound, message := "Method not found",
    data := .map [("method", method)] }

/-- Constructor `NewInvalidParamsError`. -/
def NewInvalidParamsError (data : ErrData) : Error :=
  { code := ErrorCodeInvalidParams, message := "Invalid params", data := data }

/-- Constructor `NewInternalError`. -/
def NewInternalError (data : ErrData) : Error :=
  { code := ErrorCodeInternalError, message := "Internal error", data := data }

/-- Constructor `NewUnsupportedProtocolError`: data carries both version
strings verbatim. -/
def NewUnsupportedProtocolError (clientVersion serverVersion : String) : Error :=
  { code := ErrorCodeUnsupportedProtocol, message := "Unsupported protocol version",
    data := .map [("clientVersion", clientVersion), ("serverVersion", serverVersion)] }

/-- Constructor `NewToolNotFoundError`: data carries the requested name. -/
def NewToolNotFoundError (toolName : String) : Error :=
  { code := ErrorCodeToolNotFound, message := "Tool not found",
    data := .map [("tool", toolName)] }

/-- Constructor `NewToolExecutionError`: data carries the tool name and the
underlying error message. -/
def NewToolExecutionError (toolName : String) (errMsg : String) : Error :=
  { code := ErrorCodeToolExecutionError, message := "Tool execution failed",
    data := .map [("tool", toolName), ("error", errMsg)] }

/-- Model of `IsCompatibleProtocolVersion`: exact equality with the single
supported version. -/
def IsCompatibleProtocolVersion (clientVersion : String) : Bool :=
  clientVersion = ProtocolVersion

/-- The `ClientInfo` struct. -/
structure ClientInfo : Type where
  name : String
  version : String
deriving DecidableEq, Repr

/-- The `InitializeRequest` struct (`capabilities` is never consulted by the
validation or the handler, so it is omitted from the model). -/
structure InitializeRequest : Type where
  protocolVersion : String
  clientInfo : ClientInfo
deriving DecidableEq, Repr

/-- The `ServerInfo` struct. -/
structure ServerInfo : Type where
  name : String
  version : String
deriving DecidableEq, Repr

/-- The `ToolsCapability` struct. -/
structure ToolsCapability : Type where
  listChanged : Option Bool
deriving DecidableEq, Repr

/-- The `ServerCapabilities` struct (`resources` is never set by the server). -/
structure ServerCapabilities : Type where
  tools : Option ToolsCapability
deriving DecidableEq, Repr

/-- The `InitializeResponse` struct. -/
structure InitializeResponse : Type where
  protocolVersion : String
  capabilities : ServerCapabilities
  serverInfo : ServerInfo
deriving DecidableEq, Repr

/-- Model of `ValidateInitializeRequest`; a `none` argument models the nil
pointer.  Checks run in source order: nil, empty version, version
compatibility, empty client name, empty client version. -/
def ValidateInitializeRequest : Option InitializeRequest → Option Error
  | none => some (NewInvalidRequestError (.str "Initialize request cannot be nil"))
  | some req =>
      if req.protocolVersion = "" then
        some (NewInvalidParamsError (.str "Protocol version is required"))
      else if ¬ IsCompatibleProtocolVersion req.protocolVersion then
        some (NewUnsupportedProtocolError req.protocolVersion ProtocolVersion)
      else if req.clientInfo.name = "" then
        some (NewInvalidParamsError (.str "Client name is required"))
      else if req.clientInfo.version = "" then
        some (NewInvalidParamsError (.str "Client version is required"))
      else none

/-- A `mcp.ContentBlock`. -/
structure ContentBlock : Type where
  type : String
  text : String
deriving DecidableEq, Repr

/-- Helper `NewTextContent`. -/
def NewTextContent (text : String) : ContentBlock :=
  { type := "text", text := text }

/-- A `mcp.CallToolResponse`. -/
structure CallToolResponse : Type where
  content : List ContentBlock
  isError : Option Bool
deriving DecidableEq, Repr

/-- A `mcp.CallToolRequest`: tool name plus the opaque raw-JSON arguments
(modelled as the raw byte string). -/
structure CallToolRequest : Type where
  name : String
  arguments : String
deriving DecidableEq, Repr

/-- A `mcp.Tool` descriptor as returned by `tools/list` (the schema is the
opaque `InputSchema() any` value, modelled as a string). -/
structure ToolDesc : Type where
  name : String
  description : String
  inputSchema : String
deriving DecidableEq, Repr

end Spec2Proof.MCP

namespace Spec2Proof.Tools

open Spec2Proof

/-- A tool implementation satisfying the `tools.Tool` interface: its name,
description, input schema, and `Execute` behaviour (arguments to either an
error message or a result string). -/
structure Tool : Type where
  name : String
  description : String
  inputSchema : String
  execute : String → Except String String

/-- The thread-safe `ToolRegistry` of `internal/tools/registry.go`
(part of the canonical variant): its name-to-tool map, modelled as an
association list with insert-replace semantics. -/
structure ToolRegistry : Type where
  tools : List (String × Tool)

/-- Model of `(*ToolRegistry).Register`: a nil tool (modelled `none`) or an
empty name fails; otherwise the tool is inserted, overwriting any prior
entry under the same name, and the overwrite emits the logged warning
returned alongside the new registry state. -/
def ToolRegistry.Register (r : ToolRegistry) (tool : Option Tool) :
    Except String (ToolRegistry × List String) :=
  match tool with
  | none => .error "tool cannot be nil"
  | some t =>
      if t.name = "" then .error "tool name cannot be empty"
      else
        let warnings :=
          match mapLookup r.tools t.name with
          | some _ => ["Overriding existing tool"]
          | none => []
        .ok ({ tools := mapInsert r.tools t.name t }, warnings)

/-- Model of `(*ToolRegistry).GetTool`. -/
def ToolRegistry.GetTool (r : ToolRegistry) (name : String) : Option Tool :=
  mapLookup r.tools name

end Spec2Proof.Tools

namespace Spec2Proof.MCP

open Spec2Proof.Tools

/-- The `MCPServer` struct of `internal/mcp/server.go`: registry plus the
configured server identity. -/
structure MCPServer : Type where
  registry : ToolRegistry
  name : String
  version : String

/-- Model of `(*MCPServer).Initialize`: validate the request, then answer
with the supported protocol version, the configured identity, and the tools
capability. -/
def MCPServer.Initialize (s : MCPServer) (req : Option InitializeRequest) :
    Except Error InitializeResponse :=
  match ValidateInitializeRequest req with
  | some e => .error e
  | none =>
      .ok { protocolVersion := ProtocolVersion,
            serverInfo := { name := s.name, version := s.version },
            capabilities := { tools := some { listChanged := none } } }

/-- Model of `(*MCPServer).ListTools`: a descriptor for every registered
tool. -/
def MCPServer.ListTools (s : MCPServer) : List ToolDesc :=
  s.registry.tools.map (fun p =>
    { name := p.2.name, description := p.2.description,
      inputSchema := p.2.inputSchema })

/-- Model of `(*MCPServer).CallTool`: look the tool up; absence yields the
tool-not-found error; an execution failure yields the tool-execution error
wrapping the underlying message; success wraps the result text. -/
def MCPServer.CallTool (s : MCPServer) (req : CallToolRequest) :
    Except Error CallToolResponse :=
  match s.registry.GetTool req.name with
  | none => .error (NewToolNotFoundError req.name)
  | some tool =>
      match tool.execute req.arguments with
      | .error e => .error (NewToolExecutionError req.name e)
      | .ok result => .ok { content := [NewTextContent result], isError := none }

/-- Method constant `RequestTypeInitialize`. -/
def RequestTypeInitialize : String := "initialize"

/-- Method constant `RequestTypeListTools`. -/
def RequestTypeListTools : String := "tools/list"

/-- Method constant `RequestTypeCallTool`. -/
def RequestTypeCallTool : String := "tools/call"

/-- Method constant `RequestTypeShutdown`. -/
def RequestTypeShutdown : String := "shutdown"

end Spec2Proof.MCP

namespace Spec2Proof.Transport

open Spec2Proof

/-- Raw bytes of a JSON `id` member (`json.RawMessage`), kept opaque. -/
abbrev RawId := String

/-- Outcome of `json.Unmarshal(methodRaw, &method)`: the decoded string, or
a decode failure. -/
inductive JsonField : Type
  | valid (s : String) : JsonField
  | invalid : JsonField
deriving DecidableEq, Repr

/-- The decoded method string: Go leaves `method` at its zero value (the
empty string) when the member is absent, and the transports only reach the
routing switch when it decoded successfully. -/
def methodString : Option JsonField → String
  | some (.valid s) => s
  | _ => ""

/-- Parse-level view of one inbound message, as the transports observe it:
whether the body decodes into a JSON object at all (and the decode error
text if not), presence and decodability of the `id` and `method` members,
and the outcome of re-decoding the whole message into each typed
`mcp.Message` shape (`.error` a decode failure, `.ok none` a nil `params`,
`.ok (some p)` decoded params). -/
structure InboundMsg : Type where
  wellFormedJson : Bool
  parseErrMsg : String
  id : Option RawId
  methodField : Option JsonField
  initParse : Except String (Option MCP.InitializeRequest)
  listParse : Except String (Option Unit)
  callParse : Except String (Option MCP.CallToolRequest)
  shutParse : Except String (Option Unit)

/-- A failure returned by an `mcp.Server` method: either a typed
`*mcp.Error` (matched by `errors.As`) or any other Go error, carrying its
message. -/
inductive ServerFailure : Type
  | mcp (e : MCP.Error) : ServerFailure
  | go (msg : String) : ServerFailure

/-- Behavioural model of the `mcp.Server` interface consumed by both
transports. -/
structure ServerModel : Type where
  Initialize : Option MCP.InitializeRequest → Except ServerFailure MCP.InitializeResponse
  ListTools : Unit → Except ServerFailure (List MCP.ToolDesc)
  CallTool : MCP.CallToolRequest → Except ServerFailure MCP.CallToolResponse
  Shutdown : Option Unit → Option ServerFailure

/-- The `result` payload of a successful response envelope. -/
inductive ResultVal : Type
  | initRes (r : MCP.InitializeResponse) : ResultVal
  | listRes (tools : List MCP.ToolDesc) : ResultVal
  | callRes (r : MCP.CallToolResponse) : ResultVal
  | emptyObj : ResultVal

/-- An outbound envelope: `NewResponse` (success, `result` set) or
`NewErrorMessage` (failure, `error` set); `id = none` serialises with the
`id` member absent (`omitempty`). -/
inductive OutMsg : Type
  | success (id : Option RawId) (result : ResultVal) : OutMsg
  | failure (id : Option RawId) (e : MCP.Error) : OutMsg

/-- The `id` carried by an outbound envelope. -/
def OutMsg.idOf : OutMsg → Option RawId
  | .success id _ => id
  | .failure id _ => id

/-- Model of `(*StdioServer).handleInitialize`. -/
def StdioServer.handleInitialize (srv : ServerModel) (id : Option RawId)
    (m : InboundMsg) : Option OutMsg :=
  match m.initParse with
  | .error e => some (.failure id (MCP.NewInvalidParamsError (.str e)))
  | .ok none => some (.failure id (MCP.NewInvalidParamsError (.str "missing params")))
  | .ok (some params) =>
      match srv.Initialize (some params) with
      | .error (.mcp e) => some (.failure id e)
      | .error (.go s) => some (.failure id (MCP.NewInternalError (.str s)))
      | .ok resp => some (.success id (.initRes resp))

/-- Model of `(*StdioServer).handleListTools` (a nil `params` falls back to
the empty request). -/
def StdioServer.handleListTools (srv : ServerModel) (id : Option RawId)
    (m : InboundMsg) : Option OutMsg :=
  match m.listParse with
  | .error e => some (.failure id (MCP.NewInvalidParamsError (.str e)))
  | .ok _ =>
      match srv.ListTools () with
      | .error (.mcp e) => some (.failure id e)
      | .error (.go s) => some (.failure id (MCP.NewInternalError (.str s)))
      | .ok tools => some (.success id (.listRes tools))

/-- Model of `(*StdioServer).handleCallTool`; a non-`*mcp.Error` failure is
wrapped as a tool-execution error under the requested name. -/
def StdioServer.handleCallTool (srv : ServerModel) (id : Option RawId)
    (m : InboundMsg) : Option OutMsg :=
  match m.callParse with
  | .error e => some (.failure id (MCP.NewInvalidParamsError (.str e)))
  | .ok none => some (.failure id (MCP.NewInvalidParamsError (.str "missing params")))
  | .ok (some params) =>
      match srv.CallTool params with
      | .error (.mcp e) => some (.failure id e)
      | .error (.go s) => some (.failure id (MCP.NewToolExecutionError params.name s))
      | .ok resp => some (.success id (.callRes resp))

/-- Model of `(*StdioServer).handleShutdown`. -/
def StdioServer.handleShutdown (srv : ServerModel) (id : Option RawId)
    (m : InboundMsg) : Option OutMsg :=
  match m.shutParse with
  | .error e => some (.failure id (MCP.NewInvalidParamsError (.str e)))
  | .ok params =>
      match srv.Shutdown params with
      | some (.mcp e) => some (.failure id e)
      | some (.go s) => some (.failure id (MCP.NewInternalError (.str s)))
      | none => some (.success id .emptyObj)

/-- Model of `(*StdioServer).handleMessage`: decode the raw object, extract
`id` and `method` independently, then route on the method string (absent
method decodes to the empty string); every path writes exactly one line
through `sendResponse`/`sendError` (`some`), none suppresses the reply. -/
def StdioServer.handleMessage (srv : ServerModel) (m : InboundMsg) : Option OutMsg :=
  if m.wellFormedJson = false then
    some (.failure none (MCP.NewParseError (.str m.parseErrMsg)))
  else
    match m.methodField with
    | some .invalid => some (.failure m.id (MCP.NewInvalidRequestError (.str "invalid method")))
    | mf =>
        if methodString mf = MCP.RequestTypeInitialize then
          StdioServer.handleInitialize srv m.id m
        else if methodString mf = MCP.RequestTypeListTools then
          StdioServer.handleListTools srv m.id m
        else if methodString mf = MCP.RequestTypeCallTool then
          StdioServer.handleCallTool srv m.id m
        else if methodString mf = MCP.RequestTypeShutdown then
          StdioServer.handleShutdown srv m.id m
        else some (.failure m.id (MCP.NewMethodNotFoundError (methodString mf)))

/-- The status-code mapping of `(*HTTPServer).sendError`: default 500,
parse/invalid-request/invalid-params 400, method-not-found 404,
tool-not-found 404. -/
def statusForError (code : Int) : Nat :=
  if code = MCP.ErrorCodeParseError ∨ code = MCP.ErrorCodeInvalidRequest ∨
     code = MCP.ErrorCodeInvalidParams then 400
  else if code = MCP.ErrorCodeMethodNotFound then 404
  else if code = MCP.ErrorCodeToolNotFound then 404
  else 500

/-- The HTTP status an outbound envelope is written with: `sendError` maps
the error code through the status switch, `sendResponse` uses 200. -/
def OutMsg.statusOf : OutMsg → Nat
  | .success _ _ => 200
  | .failure _ e => statusForError e.code

/-- Model of `(*HTTPServer).sendError`: the error envelope plus the mapped
status code. -/
def HTTPServer.sendError (id : Option RawId) (e : MCP.Error) : Nat × OutMsg :=
  (statusForError e.code, .failure id e)

/-- Model of `(*HTTPServer).sendResponse`: the success envelope with status
200 (`http.StatusOK`). -/
def HTTPServer.sendResponse (id : Option RawId) (r : ResultVal) : Nat × OutMsg :=
  (200, .success id r)

/-- Model of `(*HTTPServer).handleMCPRequest` (POST path): identical
routing to the stdio transport, but every reply carries the HTTP status
derived from the protocol outcome. -/
def HTTPServer.handleMCPRequest (srv : ServerModel) (m : InboundMsg) :
    Option (Nat × OutMsg) :=
  if m.wellFormedJson = false then
    some (HTTPServer.sendError none (MCP.NewParseError (.str m.parseErrMsg)))
  else
    match m.methodField with
    | some .invalid =>
        some (HTTPServer.sendError m.id (MCP.NewInvalidRequestError (.str "invalid method")))
    | mf =>
        if methodString mf = MCP.RequestTypeInitialize then
          match m.initParse with
          | .error e => some (HTTPServer.sendError m.id (MCP.NewInvalidParamsError (.str e)))
          | .ok none =>
              some (HTTPServer.sendError m.id (MCP.NewInvalidParamsError (.str "missing params")))
          | .ok (some params) =>
              match srv.Initialize (some params) with
              | .error (.mcp e) => some (HTTPServer.sendError m.id e)
              | .error (.go s) =>
                  some (HTTPServer.sendError m.id (MCP.NewInternalError (.str s)))
              | .ok resp => some (HTTPServer.sendResponse m.id (.initRes resp))
        else if methodString mf = MCP.RequestTypeListTools then
          match m.listParse with
          | .error e => some (HTTPServer.sendError m.id (MCP.NewInvalidParamsError (.str e)))
          | .ok _ =>
              match srv.ListTools () with
              | .error (.mcp e) => some (HTTPServer.sendError m.id e)
              | .error (.go s) =>
                  some (HTTPServer.sendError m.id (MCP.NewInternalError (.str s)))
              | .ok tools => some (HTTPServer.sendResponse m.id (.listRes tools))
        else if methodString mf = MCP.RequestTypeCallTool then
          match m.callParse with
          | .error e => some (HTTPServer.sendError m.id (MCP.NewInvalidParamsError (.str e)))
          | .ok none =>
              some (HTTPServer.sendError m.id (MCP.NewInvalidParamsError (.str "missing params")))
          | .ok (some params) =>
              match srv.CallTool params with
              | .error (.mcp e) => some (HTTPServer.sendError m.id e)
              | .error (.go s) =>
                  some (HTTPServer.sendError m.id (MCP.NewToolExecutionError params.name s))
              | .ok resp => some (HTTPServer.sendResponse m.id (.callRes resp))
        else if methodString mf = MCP.RequestTypeShutdown then
          match m.shutParse with
          | .error e => some (HTTPServer.sendError m.id (MCP.NewInvalidParamsError (.str e)))
          | .ok params =>
              match srv.Shutdown params with
              | some (.mcp e) => some (HTTPServer.sendError m.id e)
              | some (.go s) =>
                  some (HTTPServer.sendError m.id (MCP.NewInternalError (.str s)))
              | none => some (HTTPServer.sendResponse m.id .emptyObj)
        else some (HTTPServer.sendError m.id (MCP.NewMethodNotFoundError (methodString mf)))

end Spec2Proof.Transport

namespace Spec2Proof.HeapModel

open Spec2Proof

/-- A Go map value in the heap model: names to tool identities. -/
abbrev GoMap := List (String × Nat)

/-- A heap of Go map values; a map reference (the value a Go `map` variable
actually holds) is an index into it. -/
structure MapHeap : Type where
  maps : List GoMap
deriving DecidableEq, Repr

/-- Dereference a map handle. -/
def MapHeap.read (h : MapHeap) (r : Nat) : GoMap :=
  h.maps.getD r []

/-- A Go map assignment `m[k] = v` performed through handle `r`. -/
def MapHeap.assign (h : MapHeap) (r : Nat) (k : String) (v : Nat) : MapHeap :=
  { maps := h.maps.set r (mapInsert (h.maps.getD r []) k v) }

/-- The registry object: it holds a handle to its `tools` map. -/
structure RegistryRef : Type where
  tools : Nat
deriving DecidableEq, Repr

/-- Model of the canonical `(*ToolRegistry).GetTools`
(`internal/tools/registry.go`, thread-safe variant): allocate a fresh map,
copy every entry into it, and return the fresh handle. -/
def ToolRegistry.GetTools (h : MapHeap) (r : RegistryRef) : MapHeap × Nat :=
  ({ maps := h.maps ++ [h.read r.tools] }, h.maps.length)

/-- Model of the legacy `(*ToolRegistry).GetTools` (the earlier
`registry.go` variant): return the registry's own map handle unchanged. -/
def LegacyToolRegistry.GetTools (h : MapHeap) (r : RegistryRef) : MapHeap × Nat :=
  (h, r.tools)

end Spec2Proof.HeapModel

namespace Spec2Proof.Tools

open Spec2Proof

/-- A concrete tool whose `Execute` always fails, used to instantiate
execution-failure theorems. -/
def boomTool : Tool :=
  { name := "boom", description := "always fails", inputSchema := "obj",
    execute := fun _ => .error "kaput" }

/-- A concrete tool whose `Execute` always succeeds. -/
def okTool : Tool :=
  { name := "ok", description := "always succeeds", inputSchema := "obj",
    execute := fun _ => .ok "fine" }

/-- A replacement tool registered under the same name as `boomTool`. -/
def boomTool2 : Tool :=
  { name := "boom", description := "replacement", inputSchema := "obj",
    execute := fun _ => .ok "fine" }

end Spec2Proof.Tools

namespace Spec2Proof.Transport

open Spec2Proof

/-- A concrete `mcp.Server` behaviour used to instantiate transport
theorems on closed inputs. -/
def sampleServer : ServerModel :=
  { Initialize := fun _ => .error (.go "not ready"),
    ListTools := fun _ => .ok [],
    CallTool := fun _ => .error (.go "not ready"),
    Shutdown := fun _ => none }

/-- A concrete notification: well-formed JSON object, no `id` member, an
unknown method string, all typed decodes succeeding with nil params. -/
def sampleNotification : InboundMsg :=
  { wellFormedJson := true, parseErrMsg := "", id := none,
    methodField := some (.valid "nope"),
    initParse := .ok none, listParse := .ok none,
    callParse := .ok none, shutParse := .ok none }

/-- A concrete well-formed request with an `id` but no `method` member. -/
def sampleNoMethod : InboundMsg :=
  { wellFormedJson := true, parseErrMsg := "", id := some "7",
    methodField := none,
    initParse := .ok none, listParse := .ok none,
    callParse := .ok none, shutParse := .ok none }

end Spec2Proof.Transport

namespace Spec2Proof.TailscaleCLI

/-- An argument passing both per-argument checks of `ExecuteCommand`. -/
def argPasses (a : String) : Prop :=
  a.length ≤ maxArgLen ∧ containsAnyDangerous a = false

/-- Argument list separating the two validation orders: the code reports the
metacharacter failure at index 1, while rule-before-rule ordering would
report the length failure at index 2 first. -/
def specOrderCexArgs : List String :=
  ["status", ";", String.mk (List.replicate 1001 'a')]

/-- Well-formedness invariant of a `limitWriter`: the buffer holds exactly
`n` bytes and `n` never exceeds the limit. -/
def LimitWriter.wf (l : LimitWriter) : Prop :=
  l.buf.length = l.n ∧ l.n ≤ l.limit

/-- Total byte count of a chunked stream. -/
def totalLen (ps : List (List Char)) : Nat :=
  (ps.map List.length).sum

end Spec2Proof.TailscaleCLI

namespace Spec2Proof

theorem mapLookup_mapInsert_self {α : Type} (m : List (String × α)) (k : String)
    (v : α) : mapLookup (mapInsert m k v) k = some v := by
  induction m with
  | nil => simp [mapInsert, mapLookup]
  | cons hd tl ih =>
      obtain ⟨k₁, v₁⟩ := hd
      by_cases h : k₁ = k
      · simp [mapInsert, h, mapLookup]
      · simp [mapInsert, h, mapLookup, ih]

theorem mapLookup_mapInsert_ne {α : Type} (m : List (String × α)) (k k₂ : String)
    (v : α) (h : k ≠ k₂) : mapLookup (mapInsert m k v) k₂ = mapLookup m k₂ := by
  induction m with
  | nil => simp [mapInsert, mapLookup, h]
  | cons hd tl ih =>
      obtain ⟨k₁, v₁⟩ := hd
      by_cases h₁ : k₁ = k
      · subst h₁
        simp [mapInsert, mapLookup, h]
      · simp [mapInsert, h₁, mapLookup, ih]

end Spec2Proof

namespace Spec2Proof.TailscaleCLI

theorem validateArgsFrom_none_iff (i : Nat) (l : List String) :
    validateArgsFrom i l = none ↔ ∀ a ∈ l, argPasses a := by
  induction l generalizing i with
  | nil => simp [validateArgsFrom]
  | cons a rest ih =>
      unfold validateArgsFrom
      by_cases h₁ : a.length > maxArgLen
      · simp only [h₁, if_true]
        constructor
        · intro h
          cases h
        · intro h
          have := (h a (by simp)).1
          omega
      · by_cases h₂ : containsAnyDangerous a
        · simp only [h₁, if_false, h₂, if_true]
          constructor
          · intro h
            cases h
          · intro h
            have := (h a (by simp)).2
            simp [h₂] at this
        · simp only [h₁, if_false, h₂, Bool.false_eq_true, if_false]
          rw [ih]
          constructor
          · intro h b hb
            rcases List.mem_cons.mp hb with hba | hbr
            · subst hba
              exact ⟨by omega, by simp [h₂]⟩
            · exact h b hbr
          · intro h b hb
            exact h b (List.mem_cons_of_mem a hb)

theorem validateArgsFrom_invalidChars (l : List String) (i j : Nat) (a : String)
    (h : validateArgsFrom i l = some (.invalidChars j a)) :
    i ≤ j ∧ j - i < l.length ∧ l.getD (j - i) "" = a ∧
      a.length ≤ maxArgLen ∧ containsAnyDangerous a = true ∧
      ∀ k, k < j - i → argPasses (l.getD k "") := by
  induction l generalizing i with
  | nil => simp [validateArgsFrom] at h
  | cons b rest ih =>
      by_cases h₁ : b.length > maxArgLen
      · simp [validateArgsFrom, h₁] at h
      · by_cases h₂ : containsAnyDangerous b
        · simp [validateArgsFrom, h₁, h₂] at h
          obtain ⟨hj, hb⟩ := h
          subst hj
          subst hb
          refine ⟨Nat.le_refl _, by simp, by simp, by omega, h₂, ?_⟩
          intro k hk
          omega
        · simp [validateArgsFrom, h₁, h₂] at h
          obtain ⟨hle, hlt, hget, halen, hadang, hall⟩ := ih (i + 1) h
          have hij : i ≤ j := by omega
          have hsub : j - i = (j - (i + 1)) + 1 := by omega
          refine ⟨hij, by simp; omega, by rw [hsub]; simpa using hget, halen, hadang, ?_⟩
          intro k hk
          match k with
          | 0 =>
              simp [argPasses]
              constructor
              · omega
              · simp [h₂]
          | k' + 1 =>
              have := hall k' (by omega)
              simpa using this

theorem validateArgsFrom_tooLong (l : List String) (i j n : Nat)
    (h : validateArgsFrom i l = some (.tooLong j n)) :
    i ≤ j ∧ j - i < l.length ∧ (l.getD (j - i) "").length = n ∧
      n > maxArgLen ∧ ∀ k, k < j - i → argPasses (l.getD k "") := by
  induction l generalizing i with
  | nil => simp [validateArgsFrom] at h
  | cons b rest ih =>
      by_cases h₁ : b.length > maxArgLen
      · simp [validateArgsFrom, h₁] at h
        obtain ⟨hj, hn⟩ := h
        subst hj
        subst hn
        refine ⟨Nat.le_refl _, by simp, by simp, h₁, ?_⟩
        intro k hk
        omega
      · by_cases h₂ : containsAnyDangerous b
        · simp [validateArgsFrom, h₁, h₂] at h
        · simp [validateArgsFrom, h₁, h₂] at h
          obtain ⟨hle, hlt, hget, hgt, hall⟩ := ih (i + 1) h
          have hij : i ≤ j := by omega
          have hsub : j - i = (j - (i + 1)) + 1 := by omega
          refine ⟨hij, by simp; omega, by rw [hsub]; simpa using hget, hgt, ?_⟩
          intro k hk
          match k with
          | 0 =>
              simp [argPasses]
              constructor
              · omega
              · simp [h₂]
          | k' + 1 =>
              have := hall k' (by omega)
              simpa using this

set_option maxRecDepth 8000 in
/-- C1 counterexample: validation is NOT applied length-rule-first across
the whole argument list.  On `["status", ";", 1001 chars]` the code's first
failure is "argument 1 contains invalid characters", whereas applying the
length rule over every argument before the metacharacter rule (the claim's
order, `validateCommandSpecOrder`) yields "argument 2 too long". -/
theorem claimC1_counterexample :
    validateCommand specOrderCexArgs = some (.invalidChars 1 ";") ∧
    validateCommandSpecOrder specOrderCexArgs = some (.tooLong 2 1001) ∧
    validateCommand specOrderCexArgs ≠ validateCommandSpecOrder specOrderCexArgs := by
  refine ⟨by decide, ?_, ?_⟩
  · decide
  · decide

/-- C1 amended: `ExecuteCommand` validation applies the first failure wins
discipline with the empty-list check first, then the allow-list check on
the subcommand, then a single pass over the arguments in index order in
which each argument's length check precedes its metacharacter check; on
any validation failure the outcome is `notRun` and is independent of the
subprocess and environment, so no subprocess is spawned. -/
theorem claimC1_theorem :
    (∀ proc proc₂ : ProcModel, ∀ args env env₂ : List String,
      ∀ e : ValidationError, validateCommand args = some e →
        ExecuteCommand proc args env = .notRun e ∧
        ExecuteCommand proc args env = ExecuteCommand proc₂ args env₂) ∧
    (validateCommand [] = some .noCommand) ∧
    (∀ c : String, ∀ rest : List String, allowedCommands.contains c = false →
        validateCommand (c :: rest) = some (.notAllowed c)) ∧
    (∀ args : List String, ∀ i : Nat, ∀ a : String,
      validateCommand args = some (.invalidChars i a) →
        i < args.length ∧ args.getD i "" = a ∧ a.length ≤ maxArgLen ∧
        containsAnyDangerous a = true ∧ ∀ k, k < i → argPasses (args.getD k "")) ∧
    (∀ args : List String, ∀ i n : Nat,
      validateCommand args = some (.tooLong i n) →
        i < args.length ∧ (args.getD i "").length = n ∧ n > maxArgLen ∧
        ∀ k, k < i → argPasses (args.getD k "")) ∧
    (∀ c : String, ∀ rest : List String,
      (validateCommand (c :: rest) = none ↔
        (allowedCommands.contains c = true ∧ ∀ a ∈ c :: rest, argPasses a))) := by
  refine ⟨?_, by decide, ?_, ?_, ?_, ?_⟩
  · intro proc proc₂ args env env₂ e he
    unfold ExecuteCommand
    rw [he]
    exact ⟨rfl, rfl⟩
  · intro c rest hc
    simp only [validateCommand]
    rw [if_neg (by rw [hc]; exact Bool.false_ne_true)]
  · intro args i a h
    match args with
    | [] => simp [validateCommand] at h
    | c :: rest =>
        simp only [validateCommand] at h
        by_cases hc : allowedCommands.contains c
        · rw [if_pos hc] at h
          have := validateArgsFrom_invalidChars (c :: rest) 0 i a h
          simpa using this
        · rw [if_neg hc] at h
          simp at h
  · intro args i n h
    match args with
    | [] => simp [validateCommand] at h
    | c :: rest =>
        simp only [validateCommand] at h
        by_cases hc : allowedCommands.contains c
        · rw [if_pos hc] at h
          have := validateArgsFrom_tooLong (c :: rest) 0 i n h
          simpa using this
        · rw [if_neg hc] at h
          simp at h
  · intro c rest
    simp only [validateCommand]
    by_cases hc : allowedCommands.contains c
    · rw [if_pos hc]
      rw [validateArgsFrom_none_iff]
      constructor
      · intro h₂
        exact ⟨hc, h₂⟩
      · intro h₂
        exact h₂.2
    · rw [if_neg hc]
      constructor
      · intro h₂
        cases h₂
      · intro h₂
        exact absurd h₂.1 hc

/-- C1 witness: the amended theorem applied at concrete inputs — a
disallowed subcommand is rejected without running, and a mixed list is
rejected at its first failing argument. -/
theorem claimC1_witness :
    ExecuteCommand ⟨[], [], true⟩ ["rm", "-rf"] [] = .notRun (.notAllowed "rm") ∧
    ExecuteCommand ⟨[], [], true⟩ ["rm", "-rf"] [] =
      ExecuteCommand ⟨[['x']], [], false⟩ ["rm", "-rf"] ["A=B"] :=
  claimC1_theorem.1 ⟨[], [], true⟩ ⟨[['x']], [], false⟩ ["rm", "-rf"] [] ["A=B"]
    (.notAllowed "rm") (by decide)

theorem LimitWriter.write_no_overflow (l : LimitWriter) (p : List Char)
    (h : ¬ l.n + p.length > l.limit) :
    l.write p = ({ l with buf := l.buf ++ p, n := l.n + p.length }, p.length, none) := by
  unfold LimitWriter.write
  rw [if_neg h]

theorem LimitWriter.write_wf (l : LimitWriter) (p : List Char) (hwf : l.wf) :
    (l.write p).1.wf ∧ (l.write p).1.limit = l.limit := by
  obtain ⟨hbuf, hle⟩ := hwf
  unfold LimitWriter.write
  by_cases h : l.n + p.length > l.limit
  · rw [if_pos h]
    by_cases hr : l.limit - l.n > 0
    · rw [if_pos hr]
      refine ⟨⟨?_, ?_⟩, rfl⟩
      · show (l.buf ++ p.take (l.limit - l.n)).length = l.n + (l.limit - l.n)
        simp [List.length_take]
        omega
      · show l.n + (l.limit - l.n) ≤ l.limit
        omega
    · rw [if_neg hr]
      exact ⟨⟨hbuf, hle⟩, rfl⟩
  · rw [if_neg h]
    refine ⟨⟨?_, ?_⟩, rfl⟩
    · show (l.buf ++ p).length = l.n + p.length
      simp [hbuf]
    · show l.n + p.length ≤ l.limit
      omega

theorem LimitWriter.write_overflow (l : LimitWriter) (p : List Char)
    (hwf : l.wf) (h : l.n + p.length > l.limit) :
    (l.write p).1.buf.length = l.limit ∧ (l.write p).1.n = l.limit ∧
      (l.write p).2.2 = some (overflowMessage l.limit) := by
  obtain ⟨hbuf, hle⟩ := hwf
  unfold LimitWriter.write
  rw [if_pos h]
  by_cases hr : l.limit - l.n > 0
  · rw [if_pos hr]
    refine ⟨?_, ?_, rfl⟩
    · show (l.buf ++ p.take (l.limit - l.n)).length = l.limit
      simp [List.length_take]
      omega
    · show l.n + (l.limit - l.n) = l.limit
      omega
  · rw [if_neg hr]
    refine ⟨?_, ?_, rfl⟩
    · show l.buf.length = l.limit
      omega
    · show l.n = l.limit
      omega

theorem LimitWriter.write_at_limit (l : LimitWriter) (p : List Char)
    (hwf : l.wf) (h : l.n = l.limit) : (l.write p).1 = l := by
  obtain ⟨hbuf, hle⟩ := hwf
  unfold LimitWriter.write
  by_cases hp : p.length = 0
  · rw [if_neg (by omega)]
    have hpnil : p = [] := List.length_eq_zero.mp hp
    subst hpnil
    show LimitWriter.mk (l.buf ++ []) (l.n + 0) l.limit = l
    simp
  · rw [if_pos (by omega)]
    rw [if_neg (by omega)]

theorem feedWriter_wf (ps : List (List Char)) (l : LimitWriter) (hwf : l.wf) :
    (feedWriter l ps).1.wf ∧ (feedWriter l ps).1.limit = l.limit := by
  induction ps generalizing l with
  | nil => exact ⟨hwf, rfl⟩
  | cons p ps ih =>
      have hw := LimitWriter.write_wf l p hwf
      rcases hwp : l.write p with ⟨l₁, r, err⟩
      rw [hwp] at hw
      match err with
      | some e =>
          simp only [feedWriter, hwp]
          exact hw
      | none =>
          simp only [feedWriter, hwp]
          have := ih l₁ hw.1
          exact ⟨this.1, by rw [this.2, hw.2]⟩

theorem feedWriter_overflow (ps : List (List Char)) (l : LimitWriter)
    (hwf : l.wf) (h : l.n + totalLen ps > l.limit) :
    (feedWriter l ps).2 = some (overflowMessage l.limit) := by
  induction ps generalizing l with
  | nil =>
      exfalso
      obtain ⟨hbuf, hle⟩ := hwf
      simp [totalLen] at h
      omega
  | cons p ps ih =>
      have htot : totalLen (p :: ps) = p.length + totalLen ps := by
        simp [totalLen]
      by_cases hov : l.n + p.length > l.limit
      · have hw := LimitWriter.write_overflow l p hwf hov
        rcases hwp : l.write p with ⟨l₁, r, err⟩
        rw [hwp] at hw
        have herr : err = some (overflowMessage l.limit) := hw.2.2
        subst herr
        simp only [feedWriter, hwp]
      · have heq := LimitWriter.write_no_overflow l p hov
        simp only [feedWriter, heq]
        have hwf₁ : (LimitWriter.mk (l.buf ++ p) (l.n + p.length) l.limit).wf := by
          obtain ⟨hbuf, hle⟩ := hwf
          refine ⟨?_, ?_⟩
          · show (l.buf ++ p).length = l.n + p.length
            simp [hbuf]
          · show l.n + p.length ≤ l.limit
            omega
        have harg : (LimitWriter.mk (l.buf ++ p) (l.n + p.length) l.limit).n +
            totalLen ps > (LimitWriter.mk (l.buf ++ p) (l.n + p.length) l.limit).limit := by
          show l.n + p.length + totalLen ps > l.limit
          rw [htot] at h
          omega
        have := ih (LimitWriter.mk (l.buf ++ p) (l.n + p.length) l.limit) hwf₁ harg
        simpa using this

/-- C5: output capping.  (1) a capture through a 10 MiB `limitWriter` never
grows past the cap; (2) an overflowing write appends bytes up to exactly
the cap boundary and returns the "output exceeds N bytes" failure;
(3) once the writer sits at the cap, any later write appends nothing;
(4) when the subprocess emits more than the cap on stdout, the writer's
failure propagates out of `cmd.Run` and `ExecuteCommand` reports it as the
call's `CLIError` failure. -/
theorem claimC5_theorem :
    (∀ ps : List (List Char),
        (feedWriter (newLimitWriter maxBufSize) ps).1.buf.length ≤ maxBufSize) ∧
    (∀ l : LimitWriter, ∀ p : List Char, l.wf → l.n + p.length > l.limit →
        (l.write p).1.buf.length = l.limit ∧ (l.write p).1.n = l.limit ∧
        (l.write p).2.2 = some (overflowMessage l.limit)) ∧
    (∀ l : LimitWriter, ∀ p : List Char, l.wf → l.n = l.limit →
        (l.write p).1 = l) ∧
    (∀ proc : ProcModel, ∀ args env : List String,
        validateCommand args = none → totalLen proc.stdoutChunks > maxBufSize →
        ExecuteCommand proc args env = .failed
          { command := args.headD "", args := args,
            stderr := trimSpace
              (feedWriter (newLimitWriter maxBufSize) proc.stderrChunks).1.buf,
            underlying := overflowMessage maxBufSize }) := by
  refine ⟨?_, ?_, ?_, ?_⟩
  · intro ps
    have hwf0 : (newLimitWriter maxBufSize).wf := ⟨rfl, by simp [newLimitWriter]⟩
    have h := feedWriter_wf ps (newLimitWriter maxBufSize) hwf0
    have h₁ := h.1.1
    have h₂ := h.1.2
    have h₃ := h.2
    have h₄ : (newLimitWriter maxBufSize).limit = maxBufSize := rfl
    omega
  · intro l p hwf h
    exact LimitWriter.write_overflow l p hwf h
  · intro l p hwf h
    exact LimitWriter.write_at_limit l p hwf h
  · intro proc args env hval hlen
    have hwf0 : (newLimitWriter maxBufSize).wf := ⟨rfl, by simp [newLimitWriter]⟩
    have hover : (feedWriter (newLimitWriter maxBufSize) proc.stdoutChunks).2 =
        some (overflowMessage maxBufSize) := by
      have := feedWriter_overflow proc.stdoutChunks (newLimitWriter maxBufSize) hwf0
        (by simp [newLimitWriter]; exact hlen)
      simpa [newLimitWriter] using this
    unfold ExecuteCommand
    rw [hval]
    simp only [hover]

/-- C5 witness: the overflow lemma applied to a concrete writer at cap 3
holding 2 bytes, overflowed by a 2-byte write; and the propagation
conclusion applied to a subprocess emitting one chunk of `maxBufSize + 1`
bytes under the allowed `status` subcommand. -/
theorem claimC5_witness :
    ((LimitWriter.mk ['a', 'b'] 2 3).write ['c', 'd']).1.buf.length = 3 ∧
    ((LimitWriter.mk ['a', 'b'] 2 3).write ['c', 'd']).2.2 = some (overflowMessage 3) ∧
    ExecuteCommand ⟨[List.replicate (maxBufSize + 1) 'a'], [], true⟩ ["status"] [] =
      .failed { command := "status", args := ["status"],
                stderr := trimSpace (feedWriter (newLimitWriter maxBufSize) []).1.buf,
                underlying := overflowMessage maxBufSize } := by
  have h₁ := claimC5_theorem.2.1 (LimitWriter.mk ['a', 'b'] 2 3) ['c', 'd']
    ⟨rfl, by decide⟩ (by decide)
  have h₂ := claimC5_theorem.2.2.2 ⟨[List.replicate (maxBufSize + 1) 'a'], [], true⟩
    ["status"] [] (by decide)
    (by unfold totalLen
        rw [List.map_cons, List.map_nil, List.length_replicate, List.sum_cons,
          List.sum_nil]
        omega)
  exact ⟨h₁.1, h₁.2.2, h₂⟩

theorem upLoginArgs_erase (o : UpOptions) :
    upLoginArgs { o with authKey := "" } = upLoginArgs o := rfl

theorem upFlagArgs_erase (o : UpOptions) (a : List String) :
    upFlagArgs { o with authKey := "" } a = upFlagArgs o a := rfl

theorem upHostArgs_erase (o : UpOptions) (a : List String) :
    upHostArgs { o with authKey := "" } a = upHostArgs o a := rfl

theorem upRouteArgs_erase (routeCheck : List String → Option String)
    (o : UpOptions) (a : List String) :
    upRouteArgs routeCheck { o with authKey := "" } a = upRouteArgs routeCheck o a := rfl

theorem upTimeoutArgs_erase (o : UpOptions) (a : List String) :
    upTimeoutArgs { o with authKey := "" } a = upTimeoutArgs o a := rfl

theorem upAuthEnv_erase (o : UpOptions) :
    upAuthEnv { o with authKey := "" } = .ok [] := rfl

/-- C8: a non-empty auth key that passes validation reaches the Command
Executor only through the environment: `env` is exactly the single
`TS_AUTHKEY` entry, and the argument list is identical to the one built
from the same options with the auth key erased — so the args (and hence
the command line logged at debug level, which logs only the args) carry no
trace of the key. -/
theorem claimC8_theorem (routeCheck : List String → Option String)
    (o : UpOptions) (args env : List String) (hk : o.authKey ≠ "")
    (h : upArgsEnv routeCheck (some o) = .ok (args, env)) :
    env = ["TS_AUTHKEY=" ++ o.authKey] ∧
    upArgsEnv routeCheck (some { o with authKey := "" }) = .ok (args, []) := by
  simp only [upArgsEnv] at h ⊢
  rw [upLoginArgs_erase, upAuthEnv_erase]
  cases hL : upLoginArgs o with
  | error e => simp [hL] at h
  | ok a₁ =>
      simp only [hL] at h ⊢
      rw [upHostArgs_erase, upFlagArgs_erase]
      cases hH : upHostArgs o (upFlagArgs o a₁) with
      | error e => simp [hH] at h
      | ok a₄ =>
          simp only [hH] at h ⊢
          rw [upRouteArgs_erase]
          cases hR : upRouteArgs routeCheck o a₄ with
          | error e => simp [hR] at h
          | ok a₅ =>
              simp only [hR] at h ⊢
              rw [upTimeoutArgs_erase]
              cases hv : validateStringInput o.authKey "authKey" with
              | some e =>
                  have hA : upAuthEnv o = .error ("invalid auth key: " ++ e) := by
                    unfold upAuthEnv
                    rw [if_neg hk, hv]
                  simp [hA] at h
              | none =>
                  have hA : upAuthEnv o = .ok ["TS_AUTHKEY=" ++ o.authKey] := by
                    unfold upAuthEnv
                    rw [if_neg hk, hv]
                  simp only [hA] at h
                  simp only [Except.ok.injEq, Prod.mk.injEq] at h
                  obtain ⟨hargs, henv⟩ := h
                  subst hargs
                  subst henv
                  exact ⟨rfl, rfl⟩

/-- C8 witness: the theorem applied to concrete options whose only field is
the auth key `tskey-abc`: the env is the single `TS_AUTHKEY` entry and the
erased options produce the same argument list with an empty env. -/
theorem claimC8_witness :
    ["TS_AUTHKEY=tskey-abc"] = ["TS_AUTHKEY=" ++ "tskey-abc"] ∧
    upArgsEnv (fun _ => none)
      (some { loginServer := "", acceptRoutes := false, acceptDNS := false,
              hostname := "", advertiseRoutes := [], authKey := "",
              timeoutSeconds := 0 }) = .ok (["up"], []) :=
  claimC8_theorem (fun _ => none)
    { loginServer := "", acceptRoutes := false, acceptDNS := false,
      hostname := "", advertiseRoutes := [], authKey := "tskey-abc",
      timeoutSeconds := 0 }
    ["up"] ["TS_AUTHKEY=tskey-abc"] (by decide) rfl

end Spec2Proof.TailscaleCLI

namespace Spec2Proof.MCP

open Spec2Proof.Tools

/-- C3 counterexample: a protocol version that differs from the supported
one by being empty yields the invalid-params error, not the
unsupported-protocol-version error the claim promises for every differing
version. -/
theorem claimC3_counterexample :
    MCPServer.Initialize ⟨⟨[]⟩, "tailscale-mcp-server", "dev"⟩
        (some { protocolVersion := "",
                clientInfo := { name := "client", version := "1.0" } }) =
      .error (NewInvalidParamsError (.str "Protocol version is required")) ∧
    (NewInvalidParamsError (.str "Protocol version is required")).code ≠
      ErrorCodeUnsupportedProtocol :=
  ⟨rfl, by decide⟩

/-- C3 amended: an initialize request with the exact supported version and
non-empty client name and version succeeds with the configured identity; a
NON-EMPTY differing version yields the unsupported-protocol-version error
carrying both versions verbatim; an empty version yields invalid params. -/
theorem claimC3_theorem (s : MCPServer) (req : InitializeRequest) :
    (req.protocolVersion = ProtocolVersion → req.clientInfo.name ≠ "" →
      req.clientInfo.version ≠ "" →
      s.Initialize (some req) = .ok
        { protocolVersion := ProtocolVersion,
          serverInfo := { name := s.name, version := s.version },
          capabilities := { tools := some { listChanged := none } } }) ∧
    (req.protocolVersion ≠ "" → req.protocolVersion ≠ ProtocolVersion →
      s.Initialize (some req) =
        .error (NewUnsupportedProtocolError req.protocolVersion ProtocolVersion) ∧
      (NewUnsupportedProtocolError req.protocolVersion ProtocolVersion).data =
        .map [("clientVersion", req.protocolVersion),
              ("serverVersion", ProtocolVersion)]) ∧
    (req.protocolVersion = "" →
      s.Initialize (some req) =
        .error (NewInvalidParamsError (.str "Protocol version is required"))) := by
  refine ⟨?_, ?_, ?_⟩
  · intro hv hn hver
    simp only [MCPServer.Initialize, ValidateInitializeRequest]
    rw [if_neg (by rw [hv]; unfold ProtocolVersion; simp)]
    rw [if_neg (by unfold IsCompatibleProtocolVersion; rw [hv]; simp)]
    rw [if_neg hn, if_neg hver]
  · intro hne hnv
    refine ⟨?_, rfl⟩
    simp only [MCPServer.Initialize, ValidateInitializeRequest]
    rw [if_neg hne]
    rw [if_pos (by unfold IsCompatibleProtocolVersion; simp [hnv])]
  · intro he
    simp only [MCPServer.Initialize, ValidateInitializeRequest]
    rw [if_pos he]

/-- C3 witness: the amended theorem applied to a matching request, a
mismatching non-empty version, and the empty version, against a concrete
server identity. -/
theorem claimC3_witness :
    MCPServer.Initialize ⟨⟨[]⟩, "srv", "9.9"⟩
        (some { protocolVersion := "2024-11-05",
                clientInfo := { name := "cli", version := "1" } }) =
      .ok { protocolVersion := "2024-11-05",
            serverInfo := { name := "srv", version := "9.9" },
            capabilities := { tools := some { listChanged := none } } } ∧
    MCPServer.Initialize ⟨⟨[]⟩, "srv", "9.9"⟩
        (some { protocolVersion := "1999-01-01",
                clientInfo := { name := "cli", version := "1" } }) =
      .error (NewUnsupportedProtocolError "1999-01-01" "2024-11-05") :=
  ⟨(claimC3_theorem ⟨⟨[]⟩, "srv", "9.9"⟩
      { protocolVersion := "2024-11-05",
        clientInfo := { name := "cli", version := "1" } }).1
      (by decide) (by decide) (by decide),
   ((claimC3_theorem ⟨⟨[]⟩, "srv", "9.9"⟩
      { protocolVersion := "1999-01-01",
        clientInfo := { name := "cli", version := "1" } }).2.1
      (by decide) (by decide)).1⟩

/-- C4: `CallTool` on a name absent from the registry returns the
tool-not-found error carrying exactly the requested name (and, being a
total function into `Except`, never an uncaught fault); a registered tool
whose `Execute` fails yields the tool-execution error carrying the tool
name and the underlying message. -/
theorem claimC4_theorem (s : MCPServer) (req : CallToolRequest) :
    (s.registry.GetTool req.name = none →
      s.CallTool req = .error (NewToolNotFoundError req.name) ∧
      (NewToolNotFoundError req.name).code = ErrorCodeToolNotFound ∧
      (NewToolNotFoundError req.name).data = .map [("tool", req.name)]) ∧
    (∀ tool : Tool, ∀ msg : String,
      s.registry.GetTool req.name = some tool →
      tool.execute req.arguments = .error msg →
      s.CallTool req = .error (NewToolExecutionError req.name msg) ∧
      (NewToolExecutionError req.name msg).data =
        .map [("tool", req.name), ("error", msg)]) := by
  constructor
  · intro h
    simp only [MCPServer.CallTool, h]
    exact ⟨by trivial, by trivial, by trivial⟩
  · intro tool msg h hm
    simp only [MCPServer.CallTool, h, hm]
    exact ⟨by trivial, by trivial⟩

/-- C4 witness: the theorem applied to an empty registry (unknown name) and
to a registry holding a tool that always fails. -/
theorem claimC4_witness :
    MCPServer.CallTool ⟨⟨[]⟩, "n", "v"⟩ { name := "ghost", arguments := "" } =
      .error (NewToolNotFoundError "ghost") ∧
    MCPServer.CallTool ⟨⟨[("boom", boomTool)]⟩, "n", "v"⟩
        { name := "boom", arguments := "" } =
      .error (NewToolExecutionError "boom" "kaput") :=
  ⟨((claimC4_theorem ⟨⟨[]⟩, "n", "v"⟩ { name := "ghost", arguments := "" }).1 rfl).1,
   ((claimC4_theorem ⟨⟨[("boom", boomTool)]⟩, "n", "v"⟩
      { name := "boom", arguments := "" }).2 boomTool "kaput" rfl rfl).1⟩

end Spec2Proof.MCP

namespace Spec2Proof.Tools

open Spec2Proof

theorem filter_eq_nil_of_no_key {α : Type} (m : List (String × α)) (k : String)
    (h : ∀ p ∈ m, p.1 ≠ k) : m.filter (fun p => p.1 == k) = [] := by
  induction m with
  | nil => rfl
  | cons hd tl ih =>
      have hne : hd.1 ≠ k := h hd (by simp)
      simp only [List.filter]
      rw [show (hd.1 == k) = false by simp [hne]]
      exact ih (fun p hp => h p (List.mem_cons_of_mem hd hp))

theorem mapInsert_filter {α : Type} (m : List (String × α)) (k : String) (v : α)
    (h : (m.map Prod.fst).Nodup) :
    (mapInsert m k v).filter (fun p => p.1 == k) = [(k, v)] := by
  induction m with
  | nil => simp [mapInsert]
  | cons hd tl ih =>
      obtain ⟨k₁, v₁⟩ := hd
      simp only [List.map_cons, List.nodup_cons] at h
      obtain ⟨hnotin, hnd⟩ := h
      by_cases hk : k₁ = k
      · subst hk
        simp only [mapInsert, if_pos rfl, List.filter]
        rw [show (k₁ == k₁) = true by simp]
        have : tl.filter (fun p => p.1 == k₁) = [] := by
          apply filter_eq_nil_of_no_key
          intro p hp hpk
          exact hnotin (hpk ▸ List.mem_map_of_mem Prod.fst hp)
        rw [this]
      · simp only [mapInsert, if_neg hk, List.filter]
        rw [show (k₁ == k) = false by simp [hk]]
        exact ih hnd

/-- C6: `Register` fails on a nil tool and on an empty name; registering
under an existing name overwrites the prior entry (lookup now returns the
new tool, other names are untouched) and emits the logged warning — it is
never silently ignored; under distinct registry keys the enumeration then
holds exactly one entry for that name, the newer one. -/
theorem claimC6_theorem (r : ToolRegistry) (t t₀ : Tool) :
    (ToolRegistry.Register r none = .error "tool cannot be nil") ∧
    (t.name = "" → ToolRegistry.Register r (some t) = .error "tool name cannot be empty") ∧
    (∀ r₁ : ToolRegistry, ∀ warns : List String, t.name ≠ "" →
      ToolRegistry.Register r (some t) = .ok (r₁, warns) →
      r₁.GetTool t.name = some t ∧
      (mapLookup r.tools t.name = some t₀ → warns = ["Overriding existing tool"]) ∧
      (mapLookup r.tools t.name = none → warns = []) ∧
      (∀ nm : String, nm ≠ t.name → r₁.GetTool nm = r.GetTool nm) ∧
      ((r.tools.map Prod.fst).Nodup →
        r₁.tools.filter (fun p => p.1 == t.name) = [(t.name, t)])) := by
  refine ⟨rfl, ?_, ?_⟩
  · intro h
    simp only [ToolRegistry.Register, if_pos h]
  · intro r₁ warns hn h
    simp only [ToolRegistry.Register, if_neg hn] at h
    simp only [Except.ok.injEq, Prod.mk.injEq] at h
    obtain ⟨hr, hw⟩ := h
    subst hr
    refine ⟨?_, ?_, ?_, ?_, ?_⟩
    · exact mapLookup_mapInsert_self r.tools t.name t
    · intro hlook
      rw [← hw, hlook]
    · intro hlook
      rw [← hw, hlook]
    · intro nm hnm
      exact mapLookup_mapInsert_ne r.tools t.name nm t (fun hh => hnm hh.symm)
    · intro hnd
      exact mapInsert_filter r.tools t.name t hnd

/-- C6 witness: registering a replacement tool named `boom` over a registry
already holding `boom` yields the overwrite warning, and lookup and the
filtered enumeration show only the newer tool. -/
theorem claimC6_witness :
    ToolRegistry.GetTool ⟨mapInsert [("boom", boomTool)] "boom" boomTool2⟩ "boom" =
      some boomTool2 ∧
    (mapInsert [("boom", boomTool)] "boom" boomTool2).filter
      (fun p => p.1 == "boom") = [("boom", boomTool2)] := by
  have h := (claimC6_theorem ⟨[("boom", boomTool)]⟩ boomTool2 boomTool).2.2
      ⟨mapInsert [("boom", boomTool)] "boom" boomTool2⟩
      ["Overriding existing tool"] (by decide) rfl
  exact ⟨h.1, h.2.2.2.2 (by simp)⟩

end Spec2Proof.Tools

namespace Spec2Proof.Transport

open Spec2Proof

theorem http_status_aux (srv : ServerModel) (m : InboundMsg) :
    (HTTPServer.handleMCPRequest srv m).all (fun p => p.1 == p.2.statusOf) = true := by
  unfold HTTPServer.handleMCPRequest HTTPServer.sendError HTTPServer.sendResponse
  repeat' split
  all_goals simp [OutMsg.statusOf]

/-- C7: every reply the HTTP transport produces carries the status derived
from the protocol outcome — an error envelope gets `statusForError` of its
code, a success envelope gets 200; and the code-to-class mapping is:
parse error, invalid request and invalid params to 400; method-not-found
and tool-not-found to 404; every other code (internal error, unsupported
protocol version, tool execution error included) to 500. -/
theorem claimC7_theorem :
    (∀ srv : ServerModel, ∀ m : InboundMsg, ∀ st : Nat, ∀ out : OutMsg,
      HTTPServer.handleMCPRequest srv m = some (st, out) → st = out.statusOf) ∧
    (statusForError MCP.ErrorCodeParseError = 400 ∧
     statusForError MCP.ErrorCodeInvalidRequest = 400 ∧
     statusForError MCP.ErrorCodeInvalidParams = 400 ∧
     statusForError MCP.ErrorCodeMethodNotFound = 404 ∧
     statusForError MCP.ErrorCodeToolNotFound = 404 ∧
     statusForError MCP.ErrorCodeInternalError = 500 ∧
     statusForError MCP.ErrorCodeUnsupportedProtocol = 500 ∧
     statusForError MCP.ErrorCodeToolExecutionError = 500) ∧
    (∀ c : Int, c ≠ MCP.ErrorCodeParseError → c ≠ MCP.ErrorCodeInvalidRequest →
      c ≠ MCP.ErrorCodeInvalidParams → c ≠ MCP.ErrorCodeMethodNotFound →
      c ≠ MCP.ErrorCodeToolNotFound → statusForError c = 500) := by
  refine ⟨?_, by decide, ?_⟩
  · intro srv m st out hmain
    have aux := http_status_aux srv m
    rw [hmain] at aux
    simp only [Option.all_some] at aux
    simpa using aux
  · intro c h₁ h₂ h₃ h₄ h₅
    unfold statusForError
    rw [if_neg (by push_neg; exact ⟨h₁, h₂, h₃⟩)]
    rw [if_neg h₄, if_neg h₅]

/-- C7 witness: the status law applied to a concrete dispatched request
whose method is unknown (404 error envelope), and the default class applied
to the tool-execution error code. -/
theorem claimC7_witness :
    (404 : Nat) =
      (OutMsg.failure none (MCP.NewMethodNotFoundError "nope")).statusOf ∧
    statusForError MCP.ErrorCodeToolExecutionError = 500 :=
  ⟨claimC7_theorem.1 sampleServer sampleNotification 404
      (.failure none (MCP.NewMethodNotFoundError "nope")) rfl,
   claimC7_theorem.2.2 MCP.ErrorCodeToolExecutionError
      (by decide) (by decide) (by decide) (by decide) (by decide)⟩

/-- C10: a well-formed JSON object with no `method` member routes as the
empty-string method on both transports and is answered with the
method-not-found error (code -32601, data naming the empty method) under
the request's own id — not with an invalid-request or parse error; on HTTP
the status is 404. -/
theorem claimC10_theorem (srv : ServerModel) (m : InboundMsg)
    (h₁ : m.wellFormedJson = true) (h₂ : m.methodField = none) :
    StdioServer.handleMessage srv m =
      some (.failure m.id (MCP.NewMethodNotFoundError "")) ∧
    HTTPServer.handleMCPRequest srv m =
      some (404, .failure m.id (MCP.NewMethodNotFoundError "")) ∧
    (MCP.NewMethodNotFoundError "").code = MCP.ErrorCodeMethodNotFound ∧
    (MCP.NewMethodNotFoundError "").data = .map [("method", "")] := by
  refine ⟨?_, ?_, rfl, rfl⟩
  · unfold StdioServer.handleMessage
    rw [h₁, h₂]
    simp [methodString, MCP.RequestTypeInitialize, MCP.RequestTypeListTools,
      MCP.RequestTypeCallTool, MCP.RequestTypeShutdown]
  · unfold HTTPServer.handleMCPRequest
    rw [h₁, h₂]
    simp [methodString, MCP.RequestTypeInitialize, MCP.RequestTypeListTools,
      MCP.RequestTypeCallTool, MCP.RequestTypeShutdown, HTTPServer.sendError,
      statusForError, MCP.NewMethodNotFoundError, MCP.ErrorCodeMethodNotFound,
      MCP.ErrorCodeParseError, MCP.ErrorCodeInvalidRequest,
      MCP.ErrorCodeInvalidParams]

/-- C10 witness: the theorem applied to a concrete request carrying id 7
and no method member. -/
theorem claimC10_witness :
    StdioServer.handleMessage sampleServer sampleNoMethod =
      some (.failure (some "7") (MCP.NewMethodNotFoundError "")) ∧
    HTTPServer.handleMCPRequest sampleServer sampleNoMethod =
      some (404, .failure (some "7") (MCP.NewMethodNotFoundError "")) :=
  ⟨(claimC10_theorem sampleServer sampleNoMethod rfl rfl).1,
   (claimC10_theorem sampleServer sampleNoMethod rfl rfl).2.1⟩

/-- C2 counterexample: a notification (no `id` member) carrying an unknown
method elicits an outbound envelope from BOTH transports — the stdio
transport writes a response line and the HTTP transport writes a response
envelope — contradicting the claim that neither transport emits anything
for a notification. -/
theorem claimC2_counterexample :
    StdioServer.handleMessage sampleServer sampleNotification =
      some (.failure none (MCP.NewMethodNotFoundError "nope")) ∧
    HTTPServer.handleMCPRequest sampleServer sampleNotification =
      some (404, .failure none (MCP.NewMethodNotFoundError "nope")) :=
  ⟨rfl, rfl⟩

/-- C2 amended: for every inbound message without an `id`, each transport
still emits exactly one outbound envelope; the reply is not suppressed —
instead its `id` field is `none`, so the serialised envelope simply omits
the `id` member (`omitempty`). -/
theorem claimC2_theorem (srv : ServerModel) (m : InboundMsg) (h : m.id = none) :
    (∃ out : OutMsg, StdioServer.handleMessage srv m = some out ∧ out.idOf = none) ∧
    (∃ st : Nat, ∃ out : OutMsg,
      HTTPServer.handleMCPRequest srv m = some (st, out) ∧ out.idOf = none) := by
  constructor
  · unfold StdioServer.handleMessage StdioServer.handleInitialize
      StdioServer.handleListTools StdioServer.handleCallTool
      StdioServer.handleShutdown
    rw [h]
    repeat' split
    all_goals exact ⟨_, rfl, rfl⟩
  · unfold HTTPServer.handleMCPRequest HTTPServer.sendError HTTPServer.sendResponse
    rw [h]
    repeat' split
    all_goals exact ⟨_, _, rfl, rfl⟩

/-- C2 witness: the amended theorem applied to the concrete notification —
both transports emit an envelope whose id field is absent. -/
theorem claimC2_witness :
    (∃ out : OutMsg, StdioServer.handleMessage sampleServer sampleNotification =
        some out ∧ out.idOf = none) ∧
    (∃ st : Nat, ∃ out : OutMsg,
      HTTPServer.handleMCPRequest sampleServer sampleNotification =
        some (st, out) ∧ out.idOf = none) :=
  claimC2_theorem sampleServer sampleNotification rfl

end Spec2Proof.Transport

namespace Spec2Proof.HeapModel

open Spec2Proof

theorem listGetD_append_left {α : Type} (l₁ l₂ : List α) (i : Nat) (d : α)
    (h : i < l₁.length) : (l₁ ++ l₂).getD i d = l₁.getD i d := by
  induction l₁ generalizing i with
  | nil => simp at h
  | cons a tl ih =>
      match i with
      | 0 => rfl
      | i + 1 =>
          simp only [List.cons_append, List.getD_cons_succ]
          exact ih i (by simpa using h)

theorem listGetD_concat_length {α : Type} (l : List α) (x d : α) :
    (l ++ [x]).getD l.length d = x := by
  induction l with
  | nil => rfl
  | cons a tl ih => simp [List.getD_cons_succ, ih]

theorem listGetD_set_ne {α : Type} (l : List α) (i j : Nat) (x : α) (d : α)
    (h : i ≠ j) : (l.set i x).getD j d = l.getD j d := by
  induction l generalizing i j with
  | nil => simp
  | cons a tl ih =>
      match i, j with
      | 0, 0 => exact absurd rfl h
      | 0, j + 1 => simp [List.set]
      | i + 1, 0 => simp [List.set]
      | i + 1, j + 1 =>
          simp only [List.set, List.getD_cons_succ]
          exact ih i j (by omega)

/-- C9 counterexample: the legacy `GetTools` (`registry.go`) returns the
registry's live map, so inserting into the returned collection changes
what the registry itself now holds — the claim's snapshot-copy property
fails for that cited enumeration operation at a one-entry registry. -/
theorem claimC9_counterexample :
    (MapHeap.assign (LegacyToolRegistry.GetTools ⟨[[("a", 0)]]⟩ ⟨0⟩).1
        (LegacyToolRegistry.GetTools ⟨[[("a", 0)]]⟩ ⟨0⟩).2 "b" 1).read 0 ≠
      MapHeap.read ⟨[[("a", 0)]]⟩ 0 := by
  decide

/-- C9 amended: the canonical thread-safe `GetTools`
(`internal/tools/registry.go`) allocates a fresh map holding the same
entries and returns that handle: it differs from the registry's handle,
its contents equal the registry's at the call, mutating the returned
collection leaves the registry's map unchanged, and mutating the registry
afterwards leaves the returned snapshot unchanged.  The legacy variant's
`GetTools` returns the live map, for which the counterexample shows the
property fails. -/
theorem claimC9_theorem (h : MapHeap) (r : RegistryRef) (k : String) (v : Nat)
    (hlt : r.tools < h.maps.length) :
    ((ToolRegistry.GetTools h r).1.assign (ToolRegistry.GetTools h r).2 k v).read
        r.tools = h.read r.tools ∧
    ((ToolRegistry.GetTools h r).1.assign r.tools k v).read
        (ToolRegistry.GetTools h r).2 = h.read r.tools ∧
    (ToolRegistry.GetTools h r).2 ≠ r.tools ∧
    (ToolRegistry.GetTools h r).1.read (ToolRegistry.GetTools h r).2 =
      h.read r.tools := by
  unfold ToolRegistry.GetTools MapHeap.assign MapHeap.read
  refine ⟨?_, ?_, by simp only; omega, ?_⟩
  · simp only
    rw [listGetD_set_ne _ _ _ _ _ (by omega)]
    exact listGetD_append_left h.maps _ r.tools [] hlt
  · simp only
    rw [listGetD_set_ne _ _ _ _ _ (by omega)]
    exact listGetD_concat_length h.maps _ []
  · simp only
    exact listGetD_concat_length h.maps _ []

/-- C9 witness: the amended theorem applied to a one-entry registry at
handle 0; the snapshot handle is 1 and all four conclusions hold there. -/
theorem claimC9_witness :
    ((ToolRegistry.GetTools ⟨[[("a", 0)]]⟩ ⟨0⟩).1.assign
        (ToolRegistry.GetTools ⟨[[("a", 0)]]⟩ ⟨0⟩).2 "b" 1).read 0 =
      MapHeap.read ⟨[[("a", 0)]]⟩ 0 ∧
    (ToolRegistry.GetTools ⟨[[("a", 0)]]⟩ ⟨0⟩).2 ≠ 0 :=
  ⟨(claimC9_theorem ⟨[[("a", 0)]]⟩ ⟨0⟩ "b" 1 (by decide)).1,
   (claimC9_theorem ⟨[[("a", 0)]]⟩ ⟨0⟩ "b" 1 (by decide)).2.2.1⟩

end Spec2Proof.HeapModel
